import Mathlib

/-!
Verification of the Waste Watch analytics pipeline (`app.py`): the data
model, the filter engine (`apply_filters`), the KPI engine
(`display_kpis`), the currency resolution in `main`, and the forecast
merge logic of `render_visualizations`, shallowly embedded over lists of
records with rational-valued cost/weight and integer day-valued dates.
-/

namespace WasteWatch

/-- One row of the uploaded table. Dates are modelled as integer day
numbers; `cost` and `weight` are rationals. Categorical columns that may
be missing (NaN in pandas) are `Option String`. -/
structure Record where
  date : Int
  cost : ℚ
  weight : ℚ
  region : Option String
  site : Option String
  location : Option String
  operator : Option String
  lossReason : Option String
  stage : Option String
  deriving Repr, DecidableEq

/-- The filter configuration assembled from the sidebar widgets of
`apply_filters`: an inclusive date range and one selected-set per
categorical dimension (an empty list is an empty multiselect). -/
structure FilterSpec where
  startDate : Int
  endDate : Int
  regions : List String
  sites : List String
  locations : List String
  operators : List String
  deriving Repr, DecidableEq

/-- Membership test of a possibly-missing categorical value in a selected
set; a missing value never passes (pandas `.isin` is false on NaN). -/
def memOpt (v : Option String) (sel : List String) : Bool :=
  match v with
  | none => false
  | some x => sel.contains x

/-- One categorical filter step of `apply_filters`: `if selected: df =
df[df[col].isin(selected)]` — an empty selection passes every row
through. -/
def catFilter (proj : Record → Option String) (sel : List String)
    (df : List Record) : List Record :=
  if sel.isEmpty then df else df.filter (fun r => memOpt (proj r) sel)

/-- The date-range step of `apply_filters`:
`df[(df.Date >= start) & (df.Date <= end)]`, both ends inclusive. -/
def dateFilter (s e : Int) (df : List Record) : List Record :=
  df.filter (fun r => decide (s ≤ r.date) && decide (r.date ≤ e))

/-- The function `apply_filters` from app.py: the date range, then the region, site,
location and operator membership filters in that order. -/
def apply_filters (df : List Record) (s : FilterSpec) : List Record :=
  catFilter Record.operator s.operators
    (catFilter Record.location s.locations
      (catFilter Record.site s.sites
        (catFilter Record.region s.regions
          (dateFilter s.startDate s.endDate df))))

theorem catFilter_nil_sel (proj : Record → Option String) (df : List Record) :
    catFilter proj [] df = df := rfl

theorem dateFilter_eq_self (s e : Int) (df : List Record)
    (h : ∀ r ∈ df, s ≤ r.date ∧ r.date ≤ e) :
    dateFilter s e df = df := by
  apply List.filter_eq_self.mpr
  intro r hr
  have := h r hr
  simp [this.1, this.2]

/-- C5: a FilterSpec whose categorical selected-sets are all empty and
whose date range covers the date of every record leaves the dataset
unchanged. -/
theorem apply_filters_identity (df : List Record) (s : FilterSpec)
    (hr : s.regions = []) (hs : s.sites = []) (hl : s.locations = [])
    (ho : s.operators = [])
    (hd : ∀ r ∈ df, s.startDate ≤ r.date ∧ r.date ≤ s.endDate) :
    apply_filters df s = df := by
  unfold apply_filters
  rw [hr, hs, hl, ho, catFilter_nil_sel, catFilter_nil_sel,
    catFilter_nil_sel, catFilter_nil_sel, dateFilter_eq_self _ _ _ hd]

/-- Sample record used by concrete witnesses. -/
def rec0 : Record :=
  { date := 5, cost := 10, weight := 2, region := some "EU",
    site := some "S1", location := some "L1", operator := some "Op1",
    lossReason := some "Spoilage", stage := some "Pre-Consumer" }

/-- A FilterSpec with empty selections whose date range covers `rec0`. -/
def fullSpec : FilterSpec :=
  { startDate := 0, endDate := 10, regions := [], sites := [],
    locations := [], operators := [] }

/-- Witness for C5 at a concrete one-row dataset. -/
theorem apply_filters_identity_witness :
    apply_filters [rec0] fullSpec = [rec0] :=
  apply_filters_identity [rec0] fullSpec rfl rfl rfl rfl
    (by intro r hr; simp at hr; subst hr; constructor <;> decide)

/-- C6: with fixed selected-sets, the region and site membership filters
commute — filtering by region then site equals filtering by site then
region. -/
theorem filters_commute (df : List Record) (regs sites : List String) :
    catFilter Record.site sites (catFilter Record.region regs df)
      = catFilter Record.region regs (catFilter Record.site sites df) := by
  unfold catFilter
  by_cases h1 : regs.isEmpty <;> by_cases h2 : sites.isEmpty <;>
    simp [h1, h2, List.filter_filter]
  apply List.filter_congr
  intro r _
  exact Bool.and_comm _ _

/-! ### KPI engine (`display_kpis`) -/

/-- Total cost, `df["Cost"].sum()` — 0 on an empty view. -/
def totalCost (df : List Record) : ℚ := (df.map Record.cost).sum

/-- Total weight, `df["Weight"].sum()` — 0 on an empty view. -/
def totalWeight (df : List Record) : ℚ := (df.map Record.weight).sum

/-- Average cost per kg: `total_cost / total_weight if total_weight else 0`. -/
def avgCostPerKg (df : List Record) : ℚ :=
  if totalWeight df ≠ 0 then totalCost df / totalWeight df else 0

/-- The non-missing Loss Reason values of the view (pandas drops NaN). -/
def lossVals (df : List Record) : List String := df.filterMap Record.lossReason

/-- Number of occurrences of `v` in `vals`. -/
def countVal (vals : List String) (v : String) : Nat :=
  (vals.filter (fun w => decide (w = v))).length

/-- The highest occurrence count over `vals`. -/
def maxCount (vals : List String) : Nat :=
  (vals.map (countVal vals)).foldr max 0

/-- The values attaining the highest occurrence count (pandas `mode()`,
as a sublist of `vals`). -/
def modesOf (vals : List String) : List String :=
  vals.filter (fun v => decide (countVal vals v = maxCount vals))

/-- Pandas `mode()` returns its result sorted ascending and the code takes
`[0]`: the least value among the modes. -/
def minMode (vals : List String) : String :=
  (modesOf vals).tail.foldl min ((modesOf vals).headD "N/A")

/-- Top loss reason: `df["Loss Reason"].mode()[0] if not df["Loss Reason"].isna().all()
else "N/A"`. -/
def topLossReason (df : List Record) : String :=
  if lossVals df = [] then "N/A" else minMode (lossVals df)

/-- Rows whose Stage of Processing equals the Pre-Consumer literal. -/
def preConsumerCount (df : List Record) : Nat :=
  (df.filter (fun r => decide (r.stage = some "Pre-Consumer"))).length

/-- Percentage `(df[df["Stage of Processing"] == "Pre-Consumer"].shape[0] /
df.shape[0]) * 100`: the division has no guard, so an empty view raises
ZeroDivisionError — modelled as `none`. -/
def preConsumerPct (df : List Record) : Option ℚ :=
  if df.length = 0 then none
  else some ((preConsumerCount df / (df.length : ℚ)) * 100)

/-- The record of scalar KPIs rendered by `display_kpis`. -/
structure KPIs where
  totalCost : ℚ
  totalWeight : ℚ
  avgCostPerKg : ℚ
  topLossReason : String
  preConsumerPct : ℚ
  deriving Repr, DecidableEq

/-- The function `display_kpis`: `none` models the uncaught exception escaping the
function (pre_consumer_pct raising before anything is rendered). -/
def display_kpis (df : List Record) : Option KPIs :=
  match preConsumerPct df with
  | none => none
  | some p =>
    some ⟨totalCost df, totalWeight df, avgCostPerKg df, topLossReason df, p⟩

/-! Helper lemmas about fold-based min/max. -/

theorem foldl_min_mem : ∀ (l : List String) (a : String),
    l.foldl min a = a ∨ l.foldl min a ∈ l
  | [], _ => Or.inl rfl
  | x :: xs, a => by
    simp only [List.foldl]
    rcases foldl_min_mem xs (min a x) with h | h
    · rcases min_choice a x with hm | hm
      · exact Or.inl (by rw [h, hm])
      · exact Or.inr (by rw [h, hm]; exact List.mem_cons_self x xs)
    · exact Or.inr (List.mem_cons_of_mem x h)

theorem foldl_min_le (l : List String) (a : String) :
    l.foldl min a ≤ a ∧ ∀ x ∈ l, l.foldl min a ≤ x := by
  induction l generalizing a with
  | nil => exact ⟨le_refl a, by simp⟩
  | cons x xs ih =>
    have h := ih (min a x)
    refine ⟨le_trans h.1 (min_le_left a x), ?_⟩
    intro y hy
    rcases List.mem_cons.mp hy with rfl | hy
    · exact le_trans h.1 (min_le_right a y)
    · exact h.2 y hy

theorem le_foldr_max (l : List Nat) (x : Nat) (hx : x ∈ l) :
    x ≤ l.foldr max 0 := by
  induction l with
  | nil => cases hx
  | cons y ys ih =>
    rcases List.mem_cons.mp hx with rfl | h
    · exact le_max_left _ _
    · exact le_trans (ih h) (le_max_right _ _)

theorem foldr_max_mem_or_zero (l : List Nat) :
    l.foldr max 0 ∈ l ∨ l.foldr max 0 = 0 := by
  induction l with
  | nil => exact Or.inr rfl
  | cons y ys ih =>
    by_cases h : ys.foldr max 0 ≤ y
    · left
      have he : (y :: ys).foldr max 0 = y := max_eq_left h
      rw [he]; exact List.mem_cons_self y ys
    · push_neg at h
      have heq : (y :: ys).foldr max 0 = ys.foldr max 0 :=
        max_eq_right (le_of_lt h)
      rcases ih with hm | hz
      · exact Or.inl (by rw [heq]; exact List.mem_cons_of_mem y hm)
      · rw [hz] at h; exact absurd h (Nat.not_lt_zero y)

theorem countVal_le_maxCount (vals : List String) (v : String)
    (hv : v ∈ vals) : countVal vals v ≤ maxCount vals :=
  le_foldr_max _ _ (List.mem_map.mpr ⟨v, hv, rfl⟩)

theorem countVal_self_pos (vals : List String) (v : String)
    (hv : v ∈ vals) : 0 < countVal vals v := by
  have hm : v ∈ vals.filter (fun w => decide (w = v)) :=
    List.mem_filter.mpr ⟨hv, by simp⟩
  exact List.length_pos.mpr (List.ne_nil_of_mem hm)

theorem maxCount_attained (vals : List String) (h : vals ≠ []) :
    ∃ v ∈ vals, countVal vals v = maxCount vals := by
  rcases foldr_max_mem_or_zero (vals.map (countVal vals)) with hm | hz
  · rcases List.mem_map.mp hm with ⟨v, hv, he⟩
    exact ⟨v, hv, he⟩
  · exfalso
    cases vals with
    | nil => exact h rfl
    | cons x xs =>
      have hx : countVal (x :: xs) x ≤ maxCount (x :: xs) :=
        countVal_le_maxCount _ _ (List.mem_cons_self x xs)
      have hpos := countVal_self_pos (x :: xs) x (List.mem_cons_self x xs)
      have hz' : maxCount (x :: xs) = 0 := hz
      omega

theorem modesOf_ne_nil (vals : List String) (h : vals ≠ []) :
    modesOf vals ≠ [] := by
  rcases maxCount_attained vals h with ⟨v, hv, he⟩
  exact List.ne_nil_of_mem (List.mem_filter.mpr ⟨hv, by simp [he]⟩)

/-- C1: on the empty filtered view, totalCost, totalWeight and
avgCostPerKg are 0 and topLossReason is "N/A", but the unguarded
division by `df.shape[0]` in pre_consumer_pct raises ZeroDivisionError
(modelled as `none`), so `display_kpis` raises instead of rendering the
zero/sentinel KPIs. -/
theorem display_kpis_empty_raises :
    display_kpis ([] : List Record) = none
      ∧ totalCost [] = 0 ∧ totalWeight [] = 0
      ∧ avgCostPerKg [] = 0 ∧ topLossReason [] = "N/A"
      ∧ preConsumerPct ([] : List Record) = none := by
  refine ⟨rfl, rfl, rfl, ?_, rfl, rfl⟩
  simp [avgCostPerKg, totalWeight]

/-- Group of a single site (pandas groupby drops rows with missing
Site). -/
def siteRows (df : List Record) (s : String) : List Record :=
  df.filter (fun r => decide (r.site = some s))

/-- One bar of "Cost per KG by Site":
`x["Cost"].sum() / x["Weight"].sum() if x["Weight"].sum() else 0`. -/
def costPerKgOfSite (df : List Record) (s : String) : ℚ :=
  if totalWeight (siteRows df s) ≠ 0
  then totalCost (siteRows df s) / totalWeight (siteRows df s) else 0

theorem totalWeight_nonneg (df : List Record)
    (h : ∀ r ∈ df, 0 ≤ r.weight) : 0 ≤ totalWeight df := by
  apply List.sum_nonneg
  intro x hx
  rcases List.mem_map.mp hx with ⟨r, hr, rfl⟩
  exact h r hr

/-- C4: with non-negative weights, avgCostPerKg is totalCost/totalWeight
exactly when totalWeight is positive and 0 otherwise, and likewise for
the cost-per-kg of each site — neither ever divides by zero. -/
theorem div_safe (df : List Record) (h : ∀ r ∈ df, 0 ≤ r.weight) :
    (avgCostPerKg df =
      if 0 < totalWeight df then totalCost df / totalWeight df else 0)
    ∧ ∀ s : String, costPerKgOfSite df s =
        if 0 < totalWeight (siteRows df s)
        then totalCost (siteRows df s) / totalWeight (siteRows df s)
        else 0 := by
  have key : ∀ d : List Record, (∀ r ∈ d, 0 ≤ r.weight) →
      (if totalWeight d ≠ 0 then totalCost d / totalWeight d else 0) =
      (if 0 < totalWeight d then totalCost d / totalWeight d else 0) := by
    intro d hd
    have hnn := totalWeight_nonneg d hd
    by_cases hz : totalWeight d = 0
    · simp [hz]
    · have hpos : 0 < totalWeight d := lt_of_le_of_ne hnn (Ne.symm hz)
      simp [hz, hpos]
  constructor
  · exact key df h
  · intro s
    apply key
    intro r hr
    exact h r (List.mem_filter.mp hr).1

/-- The single record (cost=10, weight=0) of the example in the spec. -/
def recZeroW : Record :=
  { date := 1, cost := 10, weight := 0, region := none, site := some "S1",
    location := none, operator := none, lossReason := none, stage := none }

/-- Witness for C4: on the dataset with the single record
(cost=10, weight=0), avgCostPerKg is 0. -/
theorem div_safe_witness : avgCostPerKg [recZeroW] = 0 := by
  have hw : ∀ r ∈ [recZeroW], 0 ≤ r.weight := by
    intro r hr
    simp only [List.mem_singleton] at hr
    subst hr
    norm_num [recZeroW]
  have h := (div_safe [recZeroW] hw).1
  rw [h]
  norm_num [totalWeight, recZeroW]

/-- C7: topLossReason returns the strictly most frequent non-missing
lossReason value of the view, and the sentinel "N/A" whenever every
lossReason value is missing. -/
theorem topLossReason_spec (df : List Record) (v : String)
    (hmem : v ∈ lossVals df)
    (hmax : ∀ w ∈ lossVals df, w ≠ v →
      countVal (lossVals df) w < countVal (lossVals df) v) :
    topLossReason df = v
      ∧ ∀ df2 : List Record, lossVals df2 = [] →
          topLossReason df2 = "N/A" := by
  constructor
  · have hvne : lossVals df ≠ [] := List.ne_nil_of_mem hmem
    have hvmax : countVal (lossVals df) v = maxCount (lossVals df) := by
      rcases maxCount_attained _ hvne with ⟨u, hu, he⟩
      by_cases huv : u = v
      · subst huv; exact he
      · have h1 := hmax u hu huv
        have h2 := countVal_le_maxCount _ v hmem
        omega
    have hmodes : ∀ w ∈ modesOf (lossVals df), w = v := by
      intro w hw
      rcases List.mem_filter.mp hw with ⟨hwmem, hwc⟩
      by_contra hne
      have hlt := hmax w hwmem hne
      have hwc' : countVal (lossVals df) w = maxCount (lossVals df) := by
        simpa using hwc
      omega
    have hmne := modesOf_ne_nil _ hvne
    show (if lossVals df = [] then "N/A" else minMode (lossVals df)) = v
    rw [if_neg hvne]
    cases hmo : modesOf (lossVals df) with
    | nil => exact absurd hmo hmne
    | cons m rest =>
      have hm : m = v :=
        hmodes m (by rw [hmo]; exact List.mem_cons_self m rest)
      have hall : ∀ x ∈ rest, x = v := fun x hx =>
        hmodes x (by rw [hmo]; exact List.mem_cons_of_mem m hx)
      have hmin : minMode (lossVals df) = rest.foldl min m := by
        simp [minMode, hmo]
      rw [hmin]
      rcases foldl_min_mem rest m with he | he
      · rw [he, hm]
      · exact hall _ he
  · intro df2 h2
    simp [topLossReason, h2]

/-- Three records: two share lossReason "A", one has "B". -/
def exMajority : List Record :=
  [ { rec0 with lossReason := some "A" },
    { rec0 with date := 6, lossReason := some "A" },
    { rec0 with date := 7, lossReason := some "B" } ]

/-- Witness for C7: on two "A" records and one "B" record,
topLossReason returns the majority value "A". -/
theorem topLossReason_spec_witness :
    "A" ∈ lossVals exMajority ∧ topLossReason exMajority = "A" :=
  ⟨by decide, (topLossReason_spec exMajority "A" (by decide) (by decide)).1⟩

/-- C10: whenever some lossReason is present, topLossReason is a value
attaining the maximal count and is the least (string-ascending) such
value — so ties are broken deterministically toward the smallest. -/
theorem topLossReason_tie_min (df : List Record) (h : lossVals df ≠ []) :
    topLossReason df ∈ modesOf (lossVals df)
      ∧ ∀ w ∈ modesOf (lossVals df), topLossReason df ≤ w := by
  have hne := modesOf_ne_nil _ h
  have htop : topLossReason df = minMode (lossVals df) := by
    simp [topLossReason, h]
  cases hmo : modesOf (lossVals df) with
  | nil => exact absurd hmo hne
  | cons m rest =>
    have hmin : minMode (lossVals df) = rest.foldl min m := by
      simp [minMode, hmo]
    rw [htop, hmin]
    constructor
    · rcases foldl_min_mem rest m with he | he
      · rw [he]; exact List.mem_cons_self m rest
      · exact List.mem_cons_of_mem m he
    · intro w hw
      rcases List.mem_cons.mp hw with he | hw
      · rw [he]; exact (foldl_min_le rest m).1
      · exact (foldl_min_le rest m).2 w hw

/-- Two records whose lossReason values "B" and "A" are tied. -/
def exTie : List Record :=
  [ { rec0 with lossReason := some "B" },
    { rec0 with date := 6, lossReason := some "A" } ]

/-- Witness for C10 at the tied dataset: the result is a mode and below
every mode (hence "A", the smaller of the tie). -/
theorem topLossReason_tie_min_witness :
    lossVals exTie ≠ []
      ∧ (topLossReason exTie ∈ modesOf (lossVals exTie)
        ∧ ∀ w ∈ modesOf (lossVals exTie), topLossReason exTie ≤ w) :=
  ⟨by decide, topLossReason_tie_min exTie (by decide)⟩

/-- A FilterSpec whose start date is after its end date. -/
def badSpec : FilterSpec :=
  { startDate := 10, endDate := 0, regions := [], sites := [],
    locations := [], operators := [] }

theorem catFilter_nil_df (proj : Record → Option String)
    (sel : List String) : catFilter proj sel [] = [] := by
  unfold catFilter
  split <;> rfl

/-- C8 counterexample: with start date 10 after end date 0, the filter
IS applied to the one-row view — the result is empty, so no error is
raised and the previous view is not retained. -/
theorem apply_filters_inverted_range_cex :
    apply_filters [rec0] badSpec = [] ∧ [rec0] ≠ ([] : List Record) :=
  ⟨rfl, by simp⟩

/-- C8 amended: a date range with start strictly after end drops every
row — the filter is applied as an ordinary (unsatisfiable) range and
yields the empty view; no validation error exists in the code and the
previous view is not retained. -/
theorem apply_filters_inverted_range (df : List Record) (s : FilterSpec)
    (h : s.endDate < s.startDate) : apply_filters df s = [] := by
  have hd : dateFilter s.startDate s.endDate df = [] := by
    apply List.filter_eq_nil_iff.mpr
    intro r _
    simp only [Bool.and_eq_true, decide_eq_true_eq, not_and]
    intro h1 h2
    omega
  unfold apply_filters
  rw [hd, catFilter_nil_df, catFilter_nil_df, catFilter_nil_df,
    catFilter_nil_df]

/-- Witness for C8 (amended) at the concrete inverted range. -/
theorem apply_filters_inverted_range_witness :
    badSpec.endDate < badSpec.startDate
      ∧ apply_filters [rec0] badSpec = [] :=
  ⟨by decide, apply_filters_inverted_range [rec0] badSpec (by decide)⟩

/-! ### Currency resolution (`main`) -/

/-- First-occurrence deduplication, as pandas `unique()`. -/
def uniqueFirst (l : List String) : List String :=
  l.foldl (fun acc x => if acc.contains x then acc else acc ++ [x]) []

/-- Currency resolution in `main`: with a Currency column, take the
distinct non-missing values and use the single value when there is
exactly one, else the empty string; with no Currency column, the
literal string "\x7bcurrency\x7d" (a plain string literal in the
source, not an interpolation). -/
def resolveCurrency (currencyCol : Option (List (Option String))) :
    String :=
  match currencyCol with
  | none => "\x7bcurrency\x7d"
  | some vals =>
    let distinct := uniqueFirst (vals.filterMap id)
    if distinct.length = 1 then distinct.headD "" else ""

/-- C9 counterexample: the no-column case and the several-distinct-
values case fall back to two different strings, so the fallback is not
one configured default. -/
theorem resolveCurrency_cex :
    resolveCurrency none = "\x7bcurrency\x7d"
      ∧ resolveCurrency (some [some "USD", some "EUR"]) = ""
      ∧ ("\x7bcurrency\x7d" : String) ≠ "" :=
  ⟨by decide, by decide, by decide⟩

/-- C9 amended: exactly one distinct non-missing Currency value resolves
to that value; a present column with any other number of distinct values
resolves to the empty string; an absent column resolves to the literal
"\x7bcurrency\x7d" — two distinct fallback literals rather than a single
configured default. -/
theorem resolveCurrency_cases :
    (∀ vals c, uniqueFirst (vals.filterMap id) = [c] →
      resolveCurrency (some vals) = c)
    ∧ (∀ vals, (uniqueFirst (vals.filterMap id)).length ≠ 1 →
      resolveCurrency (some vals) = "")
    ∧ resolveCurrency none = "\x7bcurrency\x7d" := by
  refine ⟨?_, ?_, rfl⟩
  · intro vals c h
    simp [resolveCurrency, h]
  · intro vals h
    simp [resolveCurrency, h]

/-- Witness for C9 (amended): a column whose distinct values are exactly
["USD"] resolves to "USD". -/
theorem resolveCurrency_cases_witness :
    uniqueFirst ([some "USD", some "USD"].filterMap id) = ["USD"]
      ∧ resolveCurrency (some [some "USD", some "USD"]) = "USD" :=
  ⟨by decide,
    resolveCurrency_cases.1 [some "USD", some "USD"] "USD" (by decide)⟩

/-! ### Forecast engine (forecast section of `render_visualizations`) -/

/-- Insert a date into a sorted list of distinct dates. -/
def insertDate (d : Int) : List Int → List Int
  | [] => [d]
  | x :: xs =>
    if d < x then d :: x :: xs
    else if d = x then x :: xs
    else x :: insertDate d xs

/-- The sorted distinct dates of the view — the index that
`df.groupby("Date")` produces. -/
def sortedDates (df : List Record) : List Int :=
  df.foldr (fun r acc => insertDate r.date acc) []

/-- Date aggregation `df.groupby("Date")[col].sum().reset_index()`: one row per distinct
date, ascending, with the metric summed over the rows of that date. -/
def aggByDate (metric : Record → ℚ) (df : List Record) :
    List (Int × ℚ) :=
  (sortedDates df).map (fun d =>
    (d, ((df.filter (fun r => decide (r.date = d))).map metric).sum))

/-- The exception kinds live in the forecast section. -/
inductive Exc where
  | importError
  | fitError
  deriving Repr, DecidableEq

/-- Fitting `Prophet().fit(series)`: raises ValueError when the series has fewer
than 2 rows (fewer than 2 distinct dates); otherwise succeeds. -/
def prophetFit (hist : List (Int × ℚ)) : Except Exc Unit :=
  if hist.length < 2 then .error .fitError else .ok ()

/-- One point of the merged chart data: date, value and series tag. -/
structure FPoint where
  ds : Int
  y : ℚ
  kind : String
  deriving Repr, DecidableEq

/-- The value `history_dates.max()` as computed by Prophet. -/
def maxDate : List Int → Int
  | [] => 0
  | d :: ds => ds.foldl max d

/-- The call `model.make_future_dataframe(periods)` with the default
`include_history=True`: the history dates followed by `periods`
consecutive days starting the day after the last history date. -/
def makeFutureDates (dates : List Int) (periods : Nat) : List Int :=
  dates ++ (List.range periods).map (fun (i : Nat) => maxDate dates + 1 + (i : Int))

/-- The combined chart series of the forecast code: the actuals tagged
"Actual", then one row per `model.predict(future)` row — covering the
history dates AND the future days — all tagged "Forecast" (`yhat`
abstracts the prediction of the fitted model). -/
def mergedForecast (hist : List (Int × ℚ)) (periods : Nat)
    (yhat : Int → ℚ) : List FPoint :=
  hist.map (fun p => ⟨p.1, p.2, "Actual"⟩)
    ++ (makeFutureDates (hist.map Prod.fst) periods).map
        (fun d => ⟨d, yhat d, "Forecast"⟩)

/-- The cost-forecast block: its `try` has only an `except ImportError`
handler, so any other failure propagates out of the function. -/
def costForecastBlock (df : List Record) (periods : Nat)
    (yhat : Int → ℚ) : Except Exc (Option (List FPoint)) :=
  match prophetFit (aggByDate Record.cost df) with
  | .error .importError => .ok none
  | .error e => .error e
  | .ok _ =>
    .ok (some (mergedForecast (aggByDate Record.cost df) periods yhat))

/-- The weight-forecast block: its `try` has an `except Exception`
handler, so every failure is caught and reported in place. -/
def weightForecastBlock (df : List Record) (periods : Nat)
    (yhat : Int → ℚ) : Except Exc (Option (List FPoint)) :=
  match prophetFit (aggByDate Record.weight df) with
  | .error _ => .ok none
  | .ok _ =>
    .ok (some (mergedForecast (aggByDate Record.weight df) periods yhat))

/-- The forecast section of `render_visualizations`: the cost block runs
first; if it raises, the exception escapes the function and the weight
block never runs. -/
def forecastSection (df : List Record) (periods : Nat)
    (yhat : Int → ℚ) :
    Except Exc (Option (List FPoint) × Option (List FPoint)) :=
  match costForecastBlock df periods yhat with
  | .error e => .error e
  | .ok c =>
    match weightForecastBlock df periods yhat with
    | .error e => .error e
    | .ok w => .ok (c, w)

/-- C2: on a view with a single distinct date the cost fit fails with a
non-ImportError exception; the handler of the cost block does not catch it,
so the whole forecast section aborts and no weight forecast is produced
— although the weight block by itself would have handled the same
failure in place. -/
theorem forecastSection_single_date_aborts :
    forecastSection [rec0] 30 (fun _ => 0) = .error Exc.fitError
      ∧ weightForecastBlock [rec0] 30 (fun _ => 0) = .ok none :=
  ⟨rfl, rfl⟩

theorem le_foldl_max (l : List Int) (a : Int) :
    a ≤ l.foldl max a ∧ ∀ x ∈ l, x ≤ l.foldl max a := by
  induction l generalizing a with
  | nil => exact ⟨le_refl a, by simp⟩
  | cons x xs ih =>
    have h := ih (max a x)
    refine ⟨le_trans (le_max_left a x) h.1, ?_⟩
    intro y hy
    rcases List.mem_cons.mp hy with he | hy
    · rw [he]; exact le_trans (le_max_right a x) h.1
    · exact h.2 y hy

theorem le_maxDate (ds : List Int) : ∀ d ∈ ds, d ≤ maxDate ds := by
  cases ds with
  | nil => simp
  | cons x xs =>
    intro d hd
    rcases List.mem_cons.mp hd with he | hd
    · rw [he]; exact (le_foldl_max xs x).1
    · exact (le_foldl_max xs x).2 d hd

/-- C3 counterexample: on the 2-point series [(0,5),(1,7)] with horizon
30, the merged output has 32 Forecast points, not 30, and not every
Forecast point has its date strictly after the last actual date 1. -/
theorem mergedForecast_cex :
    ((mergedForecast [(0, 5), (1, 7)] 30 (fun _ => 0)).filter
        (fun p => decide (p.kind = "Forecast"))).length ≠ 30
      ∧ ¬ (∀ p ∈ mergedForecast [(0, 5), (1, 7)] 30 (fun _ => 0),
            p.kind = "Forecast" → 1 < p.ds) := by
  constructor
  · decide
  · decide

theorem chain'_le_consec (M : Int) (n : Nat) :
    ((List.range n).map (fun (i : Nat) => M + 1 + (i : Int))).Chain' (· ≤ ·) := by
  rw [List.chain'_map]
  apply List.Pairwise.chain'
  apply List.Pairwise.imp ?_ (List.pairwise_lt_range n)
  intro a b hab
  have hc : (a : Int) ≤ (b : Int) := by exact_mod_cast le_of_lt hab
  omega

/-- C3 amended: for a sorted N-point daily history (N ≥ 2) and horizon
h, the merged series is the N points tagged Actual followed by N + h
points tagged Forecast (predict covers history as well as future); the
combined dates are the history dates, then the history dates again,
then the h consecutive days after the last history date — so every
genuinely-future date is strictly past every actual date, with no gaps,
and each tagged segment is non-decreasing. -/
theorem mergedForecast_shape (hist : List (Int × ℚ)) (h : Nat)
    (yhat : Int → ℚ) (_hlen : 2 ≤ hist.length)
    (hsort : (hist.map Prod.fst).Chain' (· < ·)) :
    ((mergedForecast hist h yhat).filter
        (fun p => decide (p.kind = "Actual"))).length = hist.length
    ∧ ((mergedForecast hist h yhat).filter
        (fun p => decide (p.kind = "Forecast"))).length = hist.length + h
    ∧ (mergedForecast hist h yhat).map FPoint.ds
        = hist.map Prod.fst ++ makeFutureDates (hist.map Prod.fst) h
    ∧ (∀ d ∈ hist.map Prod.fst, ∀ i ∈ List.range h,
        d < maxDate (hist.map Prod.fst) + 1 + (i : Int))
    ∧ (makeFutureDates (hist.map Prod.fst) h).Chain' (· ≤ ·) := by
  have hAkeep : (hist.map (fun p => (⟨p.1, p.2, "Actual"⟩ : FPoint))).filter
      (fun p => decide (p.kind = "Actual"))
      = hist.map (fun p => (⟨p.1, p.2, "Actual"⟩ : FPoint)) := by
    apply List.filter_eq_self.mpr
    intro p hp
    rcases List.mem_map.mp hp with ⟨q, _, rfl⟩
    simp
  have hAdrop : ∀ ds : List Int, (ds.map
      (fun d => (⟨d, yhat d, "Forecast"⟩ : FPoint))).filter
      (fun p => decide (p.kind = "Actual")) = [] := by
    intro ds
    apply List.filter_eq_nil_iff.mpr
    intro p hp
    rcases List.mem_map.mp hp with ⟨d, _, rfl⟩
    simp
  have hFdrop : (hist.map (fun p => (⟨p.1, p.2, "Actual"⟩ : FPoint))).filter
      (fun p => decide (p.kind = "Forecast")) = [] := by
    apply List.filter_eq_nil_iff.mpr
    intro p hp
    rcases List.mem_map.mp hp with ⟨q, _, rfl⟩
    simp
  have hFkeep : ∀ ds : List Int, (ds.map
      (fun d => (⟨d, yhat d, "Forecast"⟩ : FPoint))).filter
      (fun p => decide (p.kind = "Forecast"))
      = ds.map (fun d => (⟨d, yhat d, "Forecast"⟩ : FPoint)) := by
    intro ds
    apply List.filter_eq_self.mpr
    intro p hp
    rcases List.mem_map.mp hp with ⟨d, _, rfl⟩
    simp
  refine ⟨?_, ?_, ?_, ?_, ?_⟩
  · rw [mergedForecast, List.filter_append, hAkeep, hAdrop]
    simp
  · rw [mergedForecast, List.filter_append, hFdrop, hFkeep]
    simp only [List.nil_append, List.length_map, makeFutureDates,
      List.length_append, List.length_range]
  · rw [mergedForecast, List.map_append, List.map_map, List.map_map]
    have h1 : (FPoint.ds ∘ fun p : Int × ℚ =>
        ({ ds := p.1, y := p.2, kind := "Actual" } : FPoint)) = Prod.fst := by
      funext p; rfl
    have h2 : (FPoint.ds ∘ fun d : Int =>
        ({ ds := d, y := yhat d, kind := "Forecast" } : FPoint)) = id := by
      funext d; rfl
    rw [h1, h2, List.map_id]
  · intro d hd i _
    have hdm := le_maxDate (hist.map Prod.fst) d hd
    have hnn : (0 : Int) ≤ (i : Int) := Int.ofNat_nonneg i
    omega
  · rw [makeFutureDates]
    apply List.chain'_append.mpr
    refine ⟨hsort.imp (fun _ _ hab => le_of_lt hab), chain'_le_consec _ _, ?_⟩
    intro x hx y hy
    have hxmem : x ∈ hist.map Prod.fst := by
      rcases List.mem_getLast?_eq_getLast hx with ⟨hne, hxe⟩
      rw [hxe]
      exact List.getLast_mem hne
    have hxle := le_maxDate (hist.map Prod.fst) x hxmem
    cases h with
    | zero => simp at hy
    | succ k =>
      have : y = maxDate (hist.map Prod.fst) + 1 + ((0 : Nat) : Int) := by
        rw [List.range_succ_eq_map] at hy
        simp at hy
        omega
      rw [this]
      push_cast
      omega

/-- Witness for C3 (amended) on the concrete 2-point series with
horizon 30: 2 Actual points and 2 + 30 Forecast points. -/
theorem mergedForecast_shape_witness :
    2 ≤ ([((0 : Int), (5 : ℚ)), (1, 7)]).length
      ∧ ((mergedForecast [((0 : Int), (5 : ℚ)), (1, 7)] 30
          (fun _ => 0)).filter
          (fun p => decide (p.kind = "Forecast"))).length = 2 + 30 :=
  ⟨by decide,
    (mergedForecast_shape [((0 : Int), (5 : ℚ)), (1, 7)] 30 (fun _ => 0)
      (by decide) (by simp [List.chain'_cons])).2.1⟩

end WasteWatch
